import Mathlib

/-! hbase-rest-dialer: base64 codec, Put shaping and Scan protocol

A shallow embedding of `hbase.go`.  Go strings are byte sequences; values of
type `interface{}` that come out of `encoding/json` are JSON trees; the
standard library's `encoding/base64` is embedded as `StdEncoding` behaves in
current Go releases; the JSON parser of scan results and the HTTP transport
(`http.NewRequest` followed by `client.Do`) are parameters of the operations
that use them, and every operation returns, next to its Go result, the
requests it handed to the transport.
-/

namespace HBase

/-! ## Go strings -/

/-- One byte of a Go string. -/
abbrev Byte := Fin 256

/-- A Go `string` (and a `[]byte`): a finite sequence of bytes. -/
abbrev GoString := List Byte

/-- The bytes of an ASCII string literal of the source. -/
def ascii (s : String) : GoString := s.toList.map (fun c => Fin.ofNat c.toNat)

/-- Go's conversion `byte(n)` of an unsigned integer: the low eight bits. -/
def toByte (n : Nat) : Byte := Fin.ofNat n

/-! ## `encoding/base64`, `StdEncoding`

The standard library's padded, non-strict encoding over the alphabet of
RFC 4648, as `base64.StdEncoding` configures it. -/

/-- The alphabet `encodeStd` of `encoding/base64`. -/
def encodeStd : GoString :=
  ascii "ABCDEFGHIJKLMNOPQRSTUVWXYZabcdefghijklmnopqrstuvwxyz0123456789+/"

/-- The padding character `StdPadding`, an equals sign. -/
def padChar : Byte := 61

/-- The table `enc.encode`: the character of a six-bit value. -/
def encodeByte (i : Nat) : Byte := encodeStd.getD i 0

/-- The table `enc.decodeMap`: the six-bit value of an alphabet character and
`0xff` for every other byte. -/
def decodeMap (c : Byte) : Nat :=
  let i := encodeStd.indexOf c
  if i < 64 then i else 255

/-- `Encoding.EncodeToString`: every three source bytes give four characters;
a remainder of one or two bytes gives two or three characters and padding. -/
def EncodeToString : GoString → GoString
  | a :: b :: c :: rest =>
    let val := a.val <<< 16 ||| b.val <<< 8 ||| c.val
    encodeByte (val >>> 18 &&& 0x3F) :: encodeByte (val >>> 12 &&& 0x3F) ::
      encodeByte (val >>> 6 &&& 0x3F) :: encodeByte (val &&& 0x3F) :: EncodeToString rest
  | [a, b] =>
    let val := a.val <<< 16 ||| b.val <<< 8
    [encodeByte (val >>> 18 &&& 0x3F), encodeByte (val >>> 12 &&& 0x3F),
      encodeByte (val >>> 6 &&& 0x3F), padChar]
  | [a] =>
    let val := a.val <<< 16
    [encodeByte (val >>> 18 &&& 0x3F), encodeByte (val >>> 12 &&& 0x3F), padChar, padChar]
  | [] => []

/-- The loops of `decodeQuantum` that skip over line feeds and carriage
returns. -/
def skipNewlines : GoString → GoString
  | c :: rest => if c = 10 ∨ c = 13 then skipNewlines rest else c :: rest
  | [] => []

/-- The end of `decodeQuantum`: the six-bit values read (missing ones are
zero) are packed into 24 bits and the first `dlen - 1` bytes are written. -/
def quantumBytes (dbuf : List Nat) (dlen : Nat) : GoString :=
  let val := dbuf.getD 0 0 <<< 18 ||| dbuf.getD 1 0 <<< 12 ||| dbuf.getD 2 0 <<< 6 ||| dbuf.getD 3 0
  [toByte (val >>> 16), toByte (val >>> 8), toByte val].take (dlen - 1)

/-- `Encoding.Decode`, the loop over `decodeQuantum`, as one recursion over the
remaining input: `dbuf` holds the six-bit values of the quantum being read
(its length is the index `j` of the source).  `none` stands for a returned
`CorruptInputError`; the fast paths of the source decode the same quanta.
Line feeds and carriage returns are ignored, a quantum must be complete or
padded, and only ignored characters may follow the padding. -/
def decode : GoString → List Nat → Option GoString
  | [], dbuf => if dbuf.length = 0 then some [] else none
  | c :: rest, dbuf =>
    if decodeMap c ≠ 255 then
      if dbuf.length = 3 then
        (decode rest []).map (fun tl => quantumBytes (dbuf ++ [decodeMap c]) 4 ++ tl)
      else decode rest (dbuf ++ [decodeMap c])
    else if c = 10 ∨ c = 13 then decode rest dbuf
    else if c ≠ padChar then none
    else
      match dbuf.length with
      | 0 => none
      | 1 => none
      | 2 =>
        match skipNewlines rest with
        | [] => none
        | p :: rest2 =>
          if p ≠ padChar then none
          else if skipNewlines rest2 = [] then some (quantumBytes dbuf 2) else none
      | _ => if skipNewlines rest = [] then some (quantumBytes dbuf 3) else none

/-- `Encoding.DecodeString`: the decoded bytes, or `none` when the decoder
returns an error. -/
def DecodeString (s : GoString) : Option GoString := decode s []

/-! ## Valid standard base64

The syntax of RFC 4648, section 4, written from its words and independent of
the decoder; line feeds and carriage returns are set aside, as the decoder of
`encoding/base64` documents. -/

/-- A character of the alphabet of standard base64. -/
def isAlphabet (c : Byte) : Bool := decide (c ∈ encodeStd)

/-- The groups of standard base64 (RFC 4648, section 4): groups of four
alphabet characters, the last of which may end in one or two padding
characters. -/
def wellFormedGroups : GoString → Bool
  | [] => true
  | a :: b :: c :: d :: rest =>
    isAlphabet a && isAlphabet b &&
      ((isAlphabet c && isAlphabet d && wellFormedGroups rest) ||
        (isAlphabet c && decide (d = padChar) && rest.isEmpty) ||
        (decide (c = padChar) && decide (d = padChar) && rest.isEmpty))
  | _ => false

/-- A string without its line feeds and carriage returns. -/
def stripNewlines (s : GoString) : GoString := s.filter (fun c => decide (¬ (c = 10 ∨ c = 13)))

/-- Valid standard base64, line breaks aside: the text that remains without
line feeds and carriage returns is made of well-formed groups. -/
def validStdBase64 (s : GoString) : Bool := wellFormedGroups (stripNewlines s)

/-! ## The codec of `hbase.go` -/

/-- `b64Encode` (hbase.go 116-118). -/
def b64Encode (s : GoString) : GoString := EncodeToString s

/-- `b64Decode` (hbase.go 120-126): the decoded bytes, and the fixed text
`invalid base64` when the decoder reports an error. -/
def b64Decode (s : GoString) : GoString :=
  match DecodeString s with
  | none => ascii "invalid base64"
  | some decoded => decoded

/-! ## JSON values -/

/-- A value of type `interface{}` as `encoding/json` produces and accepts it:
`nil`, `bool`, a number, `string`, `[]interface{}` and
`map[string]interface{}`.  A map is the list of its entries; a value is a
tree, no map or slice is reached twice. -/
inductive JSON where
  | null
  | bool (b : Bool)
  | num (n : Int)
  | str (s : GoString)
  | arr (xs : List JSON)
  | obj (kvs : List (GoString × JSON))

mutual

/-- `deepinJSON` (hbase.go 136-152): a map and a slice are visited entry by
entry, each entry replaced by the result for it; any other value is asserted
to be a string and encoded or decoded.  `none` is the run-time panic of the
type assertion `obj.(string)` on a value that is not a string. -/
def deepinJSON : JSON → Bool → Option JSON
  | .obj objMap, encode => (deepinMap objMap encode).map JSON.obj
  | .arr objSlice, encode => (deepinSlice objSlice encode).map JSON.arr
  | .str s, encode => if encode then some (.str (b64Encode s)) else some (.str (b64Decode s))
  | .null, _ => none
  | .bool _, _ => none
  | .num _, _ => none

/-- The loop `for k, v := range objMap` of `deepinJSON`. -/
def deepinMap : List (GoString × JSON) → Bool → Option (List (GoString × JSON))
  | [], _ => some []
  | (k, v) :: rest, encode =>
    match deepinJSON v encode with
    | none => none
    | some w => (deepinMap rest encode).map (fun tl => (k, w) :: tl)

/-- The loop `for i, v := range objSlice` of `deepinJSON`. -/
def deepinSlice : List JSON → Bool → Option (List JSON)
  | [], _ => some []
  | v :: rest, encode =>
    match deepinJSON v encode with
    | none => none
    | some w => (deepinSlice rest encode).map (fun tl => w :: tl)

end

/-- `encodeJSON` (hbase.go 128-130). -/
def encodeJSON (obj : List (GoString × JSON)) : Option (List (GoString × JSON)) :=
  match deepinJSON (.obj obj) true with
  | some (.obj m) => some m
  | _ => none

/-- `decodeJSON` (hbase.go 132-134). -/
def decodeJSON (obj : List (GoString × JSON)) : Option (List (GoString × JSON)) :=
  match deepinJSON (.obj obj) false with
  | some (.obj m) => some m
  | _ => none

/-- `fromJSON` (hbase.go 108-114): the value handed to `json.Marshal`, which
does not fail on a JSON value; `none` is a panic of `encodeJSON`. -/
def fromJSON (obj : List (GoString × JSON)) (encode : Bool) : Option JSON :=
  if encode then (encodeJSON obj).map JSON.obj else some (.obj obj)

mutual

/-- The string leaves of a tree, in order. -/
def JSON.leaves : JSON → List GoString
  | .obj kvs => JSON.leavesMap kvs
  | .arr xs => JSON.leavesSlice xs
  | .str s => [s]
  | .null => []
  | .bool _ => []
  | .num _ => []

/-- The string leaves below the entries of a map. -/
def JSON.leavesMap : List (GoString × JSON) → List GoString
  | [] => []
  | (_, v) :: rest => JSON.leaves v ++ JSON.leavesMap rest

/-- The string leaves below the elements of a slice. -/
def JSON.leavesSlice : List JSON → List GoString
  | [] => []
  | v :: rest => JSON.leaves v ++ JSON.leavesSlice rest

end

mutual

/-- The shape of a tree: the tree with every string leaf blanked, which keeps
the keys of every map, the length and order of every slice and the nesting. -/
def JSON.shape : JSON → JSON
  | .obj kvs => .obj (JSON.shapeMap kvs)
  | .arr xs => .arr (JSON.shapeSlice xs)
  | .str _ => .str []
  | .null => .null
  | .bool b => .bool b
  | .num n => .num n

/-- The shapes of the entries of a map, under their keys. -/
def JSON.shapeMap : List (GoString × JSON) → List (GoString × JSON)
  | [] => []
  | (k, v) :: rest => (k, JSON.shape v) :: JSON.shapeMap rest

/-- The shapes of the elements of a slice. -/
def JSON.shapeSlice : List JSON → List JSON
  | [] => []
  | v :: rest => JSON.shape v :: JSON.shapeSlice rest

end

mutual

/-- Every leaf of the tree is a string. -/
def JSON.stringLeaves : JSON → Bool
  | .obj kvs => JSON.stringLeavesMap kvs
  | .arr xs => JSON.stringLeavesSlice xs
  | .str _ => true
  | .null => false
  | .bool _ => false
  | .num _ => false

/-- Every leaf below the entries of a map is a string. -/
def JSON.stringLeavesMap : List (GoString × JSON) → Bool
  | [] => true
  | (_, v) :: rest => JSON.stringLeaves v && JSON.stringLeavesMap rest

/-- Every leaf below the elements of a slice is a string. -/
def JSON.stringLeavesSlice : List JSON → Bool
  | [] => true
  | v :: rest => JSON.stringLeaves v && JSON.stringLeavesSlice rest

end

/-- The value under a key of a JSON object, when the key is present. -/
def JSON.field (k : GoString) : JSON → Option JSON
  | .obj kvs => (kvs.find? (fun kv => kv.1 = k)).map (fun kv => kv.2)
  | _ => none

/-- The keys of a JSON object. -/
def JSON.keys : JSON → List GoString
  | .obj kvs => kvs.map (fun kv => kv.1)
  | _ => []

/-! ## Data model -/

/-- `Dialer` (hbase.go 14-19): the base URL of the gateway. -/
structure Dialer where
  URL : GoString
deriving DecidableEq

/-- `Row` (hbase.go 32-34): the row operations of a dialer. -/
structure Row where
  parent : Dialer
deriving DecidableEq

/-- `CellData` (hbase.go 48-52). -/
structure CellData where
  Column : GoString
  Timestamp : Int
  Value : GoString
deriving DecidableEq

/-- `RowData` (hbase.go 42-45). -/
structure RowData where
  Key : GoString
  Cell : List CellData
deriving DecidableEq

/-- `ScanData` (hbase.go 37-39). -/
structure ScanData where
  Row : List RowData
deriving DecidableEq

/-- `Scanner` (hbase.go 55-60).  A `nil` filter and an empty filter are both
the empty list of entries. -/
structure Scanner where
  Batch : Int
  StartRow : GoString
  EndRow : GoString
  Filter : List (GoString × JSON)

/-! ## Transport -/

/-- The request `dial` builds: method, final URL, the JSON value whose
`json.Marshal` bytes are the body (`none` for a `nil` buffer) and the headers
set. -/
structure Request where
  method : GoString
  url : GoString
  body : Option JSON
  header : List (GoString × GoString)

/-- The parts of an `http.Response` the callers read. -/
structure Response where
  StatusCode : Int
  Status : GoString
  Location : GoString
  Body : GoString
deriving DecidableEq

/-- What a call of `dial` comes to: a response, a returned error with its
message, or the panic of `req.Header.Set` on the `nil` request that
`http.NewRequest` returns for a URL it cannot parse. -/
inductive Dialed where
  | response (res : Response)
  | error (msg : GoString)
  | panic
deriving DecidableEq

/-- The network behind `dial` (`http.NewRequest` and `client.Do`): the answer
to a request, given the requests the call has completed before it. -/
abbrev Transport := List Request → Request → Dialed

/-- The result of a Go call that returns `(value, error)`, or panics. -/
inductive Outcome (α : Type) where
  | ok (a : α)
  | error (msg : GoString)
  | panic
deriving DecidableEq

/-- A finished call: its result, the requests it made and waited for, in
order, and the requests it started in a goroutine of its own, whose answers it
drops. -/
structure Call (α : Type) where
  result : Outcome α
  requests : List Request
  detached : List Request

/-- The headers `dial` sets on a request without a body. -/
def acceptHeader : List (GoString × GoString) := [(ascii "Accept", ascii "application/json")]

/-- The headers `dial` sets on a request with a body. -/
def bodyHeader : List (GoString × GoString) :=
  [(ascii "Content-Type", ascii "application/json"), (ascii "Accept", ascii "application/json")]

/-- The request of `dial` (hbase.go 76-88): the URL is `rest` itself when
`fullURL` is set and the base URL followed by `rest` otherwise; a body brings
the `Content-Type` header, and `Accept` is always set. -/
def Dialer.request (d : Dialer) (method rest : GoString) (buf : Option JSON) (fullURL : Bool) :
    Request :=
  { method := method
    url := if fullURL then rest else d.URL ++ rest
    body := buf
    header :=
      (match buf with
        | none => []
        | some _ => [(ascii "Content-Type", ascii "application/json")]) ++
      [(ascii "Accept", ascii "application/json")] }

/-- `dial` (hbase.go 71-95) over a transport, after the requests `sent`. -/
def Dialer.dial (d : Dialer) (t : Transport) (sent : List Request) (method rest : GoString)
    (buf : Option JSON) (fullURL : Bool) : Dialed :=
  t sent (d.request method rest buf fullURL)

/-! ## Scanner configuration and scan result -/

/-- `json.Marshal` of a `Scanner`, by its field tags (hbase.go 56-59): every
field is `omitempty`, so a zero batch, an empty string and a filter without
entries leave no key. -/
def Scanner.marshal (s : Scanner) : JSON :=
  .obj ((if s.Batch = 0 then [] else [(ascii "batch", JSON.num s.Batch)]) ++
    (if s.StartRow.length = 0 then [] else [(ascii "startRow", JSON.str s.StartRow)]) ++
    (if s.EndRow.length = 0 then [] else [(ascii "endRow", JSON.str s.EndRow)]) ++
    (if s.Filter.length = 0 then [] else [(ascii "filter", JSON.obj s.Filter)]))

/-- `Scanner.convert` (hbase.go 154-159): both row bounds are encoded in
place, then the scanner is marshalled. -/
def Scanner.convert (s : Scanner) : JSON :=
  let s1 := { s with StartRow := b64Encode s.StartRow }
  let s2 := { s1 with EndRow := b64Encode s1.EndRow }
  s2.marshal

/-- The loop `for j, c := range r.Cell` of `ScanData.convert` on row `i`:
`s.Row[i].Cell[j].Column` and `s.Row[i].Cell[j].Value` are assigned from the
element `c` ranged over. -/
def convertCells (i : Nat) (cell : List CellData) (row : List RowData) : List RowData :=
  cell.enum.foldl (fun acc jc =>
    let acc1 := acc.modify (fun x =>
      { x with Cell := x.Cell.modify (fun y => { y with Column := b64Decode jc.2.Column }) jc.1 }) i
    acc1.modify (fun x =>
      { x with Cell := x.Cell.modify (fun y => { y with Value := b64Decode jc.2.Value }) jc.1 }) i)
    row

/-- The loop `for i, r := range s.Row` of `ScanData.convert`: `s.Row[i].Key`
is assigned from the element `r` ranged over, then the cells of `r` are
visited. -/
def convertRows (row : List RowData) : List RowData :=
  row.enum.foldl (fun acc ir =>
    convertCells ir.1 ir.2.Cell (acc.modify (fun x => { x with Key := b64Decode ir.2.Key }) ir.1))
    row

/-- `ScanData.convert` (hbase.go 161-174) on a fresh `ScanData`.  `Decode` is
`json.NewDecoder(body).Decode(s)`: the scan data a body parses to, or the
error of the parser. -/
def ScanData.convert (Decode : GoString → Except GoString ScanData) (body : GoString) :
    Outcome (List RowData) :=
  match Decode body with
  | .error err => .error err
  | .ok s => .ok (convertRows s.Row)

/-! ## Row operations -/

/-- The inner loop of `Put` (hbase.go 259-264),
`for i := 1; i < len(d[1:]); i += 2`, from index `i` with the cells appended so
far; `fuel` bounds the number of rounds and `none` is an index out of range. -/
def putCells (d : List GoString) : Nat → Nat → List JSON → Option (List JSON)
  | 0, _, cell => some cell
  | fuel + 1, i, cell =>
    if i < (d.drop 1).length then
      match d.get? i, d.get? (i + 1) with
      | some c, some v =>
        putCells d fuel (i + 2)
          (cell ++
            [JSON.obj [(ascii "column", .str (b64Encode c)), (ascii "$", .str (b64Encode v))]])
      | _, _ => none
    else some cell

/-- The outer loop of `Put` (hbase.go 257-270) with the rows appended so far.
`none` is a panic: the slice `d[1:]` and the index `d[0]` of an empty
record. -/
def putRows : List (List GoString) → List JSON → Option (List JSON)
  | [], rows => some rows
  | d :: rest, rows =>
    if d.length < 1 then none
    else
      match putCells d d.length 1 [], d.get? 0 with
      | some cell, some key =>
        putRows rest
          (rows ++ [JSON.obj [(ascii "key", .str (b64Encode key)), (ascii "Cell", .arr cell)]])
      | _, _ => none

/-- `Row.Put` (hbase.go 252-288): the check of `len(datas)`, the rows, the
payload with all rows under `Row`, one `PUT` to the table's `putrow`, and the
check of its status. -/
def Row.Put (r : Row) (t : Transport) (table : GoString) (datas : List (List GoString)) :
    Call Unit :=
  if datas.length % 2 = 0 then
    ⟨.error (ascii "row put > datas len is not odd"), [], []⟩
  else
    match putRows datas [] with
    | none => ⟨.panic, [], []⟩
    | some rows =>
      match fromJSON [(ascii "Row", JSON.arr rows)] false with
      | none => ⟨.panic, [], []⟩
      | some buf =>
        let rest := ascii "/" ++ table ++ ascii "/putrow"
        let req := r.parent.request (ascii "PUT") rest (some buf) false
        match r.parent.dial t [] (ascii "PUT") rest (some buf) false with
        | .panic => ⟨.panic, [req], []⟩
        | .error err => ⟨.error err, [req], []⟩
        | .response res =>
          if res.StatusCode ≠ 200 then ⟨.error (ascii "row put > " ++ res.Status), [req], []⟩
          else ⟨.ok (), [req], []⟩

/-- `Row.Scan` (hbase.go 291-323): the `PUT` that opens the scanner, the `GET`
of the location it answers with, and the `DELETE` of that location, started
with `go` and not waited for.  The body parsed is the one of the fetch
response: the call reads `res.Body` right after the `go` statement, before the
goroutine has an answer to assign.  `json.Marshal` does not fail on a scanner
whose filter is a JSON value, so the dropped error of `convert` is always
`nil`. -/
def Row.Scan (r : Row) (t : Transport) (Decode : GoString → Except GoString ScanData)
    (table : GoString) (scanner : Scanner) : Call (List RowData) :=
  let buf := scanner.convert
  let rest := ascii "/" ++ table ++ ascii "/scanner"
  let put := r.parent.request (ascii "PUT") rest (some buf) false
  match r.parent.dial t [] (ascii "PUT") rest (some buf) false with
  | .panic => ⟨.panic, [put], []⟩
  | .error err => ⟨.error (ascii "put scan obj > " ++ err), [put], []⟩
  | .response res =>
    let scanObj := res.Location
    if res.StatusCode ≠ 201 then ⟨.error (ascii "put scan obj > " ++ res.Status), [put], []⟩
    else
      let get := r.parent.request (ascii "GET") scanObj none true
      match r.parent.dial t [put] (ascii "GET") scanObj none true with
      | .panic => ⟨.panic, [put, get], []⟩
      | .error err => ⟨.error (ascii "get scan obj > " ++ err), [put, get], []⟩
      | .response res2 =>
        if res2.StatusCode ≠ 200 then
          ⟨.error (ascii "get scan obj > " ++ res2.Status), [put, get], []⟩
        else
          ⟨ScanData.convert Decode res2.Body, [put, get],
            [r.parent.request (ascii "DELETE") scanObj none true]⟩

/-! ## Sample inputs -/

/-- The row operations of a dialer for `http://host`. -/
def sampleRow : Row := ⟨⟨ascii "http://host"⟩⟩

/-- A fetch body: one row `rowkey` with the cells `col1 = val1` at time 1 and
`col2 = val2` at time 2, all base64 on the wire. -/
def sampleBody : GoString :=
  ascii ("\x7b\x22Row\x22:[\x7b\x22key\x22:\x22cm93a2V5\x22,\x22Cell\x22:[" ++
    "\x7b\x22column\x22:\x22Y29sMQ==\x22,\x22timestamp\x22:1,\x22$\x22:\x22dmFsMQ==\x22\x7d," ++
    "\x7b\x22column\x22:\x22Y29sMg==\x22,\x22timestamp\x22:2,\x22$\x22:\x22dmFsMg==\x22\x7d]\x7d]\x7d")

/-- What the JSON parser reads from `sampleBody`. -/
def sampleScanData : ScanData :=
  ⟨[⟨ascii "cm93a2V5",
      [⟨ascii "Y29sMQ==", 1, ascii "dmFsMQ=="⟩, ⟨ascii "Y29sMg==", 2, ascii "dmFsMg=="⟩]⟩]⟩

/-- A parser that knows `sampleBody` and reports an error on any other text. -/
def sampleDecode : GoString → Except GoString ScanData := fun body =>
  if body = sampleBody then .ok sampleScanData else .error (ascii "unexpected end of JSON input")

/-- A fetch body with one malformed leaf: the value `!!` of the first cell is
no base64. -/
def malformedBody : GoString :=
  ascii ("\x7b\x22Row\x22:[\x7b\x22key\x22:\x22cm93a2V5\x22,\x22Cell\x22:[" ++
    "\x7b\x22column\x22:\x22Y29sMQ==\x22,\x22timestamp\x22:1,\x22$\x22:\x22!!\x22\x7d," ++
    "\x7b\x22column\x22:\x22Y29sMg==\x22,\x22timestamp\x22:2,\x22$\x22:\x22dmFsMg==\x22\x7d]\x7d]\x7d")

/-- What the JSON parser reads from `malformedBody`. -/
def malformedScanData : ScanData :=
  ⟨[⟨ascii "cm93a2V5",
      [⟨ascii "Y29sMQ==", 1, ascii "!!"⟩, ⟨ascii "Y29sMg==", 2, ascii "dmFsMg=="⟩]⟩]⟩

/-- A parser that knows `malformedBody` and reports an error on any other
text. -/
def malformedDecode : GoString → Except GoString ScanData := fun body =>
  if body = malformedBody then .ok malformedScanData
  else .error (ascii "unexpected end of JSON input")

/-- A gateway that creates a scanner at `http://host/table/scanner/123` for the
first request of a call and serves `sampleBody` to the next ones. -/
def scanTransport : Transport := fun sent _ =>
  match sent with
  | [] => .response ⟨201, ascii "201 Created", ascii "http://host/table/scanner/123", []⟩
  | _ :: _ => .response ⟨200, ascii "200 OK", [], sampleBody⟩

/-- A gateway that refuses to create a scanner. -/
def refusingTransport : Transport := fun _ _ =>
  .response ⟨404, ascii "404 Not Found", [], []⟩

/-- A gateway that creates a scanner and then fails to serve it. -/
def failingFetchTransport : Transport := fun sent _ =>
  match sent with
  | [] => .response ⟨201, ascii "201 Created", ascii "http://host/table/scanner/123", []⟩
  | _ :: _ => .response ⟨500, ascii "500 Internal Server Error", [], []⟩

/-- A gateway that answers every request with 200. -/
def acceptingTransport : Transport := fun _ _ => .response ⟨200, ascii "200 OK", [], []⟩

/-- A tree of strings: a map with a string and a slice holding a string, one of
them malformed base64, and a nested map. -/
def sampleTree : JSON :=
  .obj [(ascii "key", .str (ascii "cm93a2V5")),
    (ascii "Cell", .arr [.str (ascii "!!"), .obj [(ascii "$", .str (ascii "dmFsMQ=="))]])]

/-! ## Lemmas

Arithmetic of the base64 quanta, the round trip of the codec, the loops of
`deepinJSON`, `ScanData.convert` and `Put` in closed form, and what the decoder
rejects. -/

/-- The decoding table inverts the encoding table on the 64 six-bit values. -/
theorem decodeMap_encodeByte : ∀ i : Fin 64, decodeMap (encodeByte i.val) = i.val := by decide

/-- The decoding table inverts the encoding table, for a value below 64. -/
theorem decodeMap_encodeByte_lt (i : Nat) (h : i < 64) : decodeMap (encodeByte i) = i :=
  decodeMap_encodeByte ⟨i, h⟩

/-- Three bytes packed with shifts and bitwise or are their sum with weights. -/
theorem shift_or_bytes3 (a b c : Nat) (hb : b < 256) (hc : c < 256) :
    a <<< 16 ||| b <<< 8 ||| c = a * 65536 + b * 256 + c := by
  have h1 : a <<< 16 ||| b <<< 8 = a * 65536 + b * 256 := by
    have := Nat.mul_add_lt_is_or (i := 16) (b := b * 256) (by norm_num; omega) a
    simp only [Nat.shiftLeft_eq]
    norm_num at this ⊢
    rw [Nat.mul_comm a 65536, ← this]
  rw [h1]
  have := Nat.mul_add_lt_is_or (i := 8) (b := c) (by norm_num; omega) (a * 256 + b)
  norm_num at this
  have e : a * 65536 + b * 256 = 256 * (a * 256 + b) := by ring
  rw [e, ← this]

/-- Four six-bit values packed with shifts and bitwise or are their sum with
weights. -/
theorem shift_or_sextets (a b c d : Nat) (hb : b < 64) (hc : c < 64) (hd : d < 64) :
    a <<< 18 ||| b <<< 12 ||| c <<< 6 ||| d = a * 262144 + b * 4096 + c * 64 + d := by
  have h1 : a <<< 18 ||| b <<< 12 = a * 262144 + b * 4096 := by
    have := Nat.mul_add_lt_is_or (i := 18) (b := b * 4096) (by norm_num; omega) a
    simp only [Nat.shiftLeft_eq]
    norm_num at this ⊢
    rw [Nat.mul_comm a 262144, ← this]
  have h2 : a * 262144 + b * 4096 ||| c <<< 6 = a * 262144 + b * 4096 + c * 64 := by
    have := Nat.mul_add_lt_is_or (i := 12) (b := c * 64) (by norm_num; omega) (a * 64 + b)
    simp only [Nat.shiftLeft_eq]
    norm_num at this ⊢
    have e : a * 262144 + b * 4096 = 4096 * (a * 64 + b) := by ring
    rw [e, ← this]
  rw [h1, h2]
  have := Nat.mul_add_lt_is_or (i := 6) (b := d) (by norm_num; omega) (a * 4096 + b * 64 + c)
  norm_num at this
  have e : a * 262144 + b * 4096 + c * 64 = 64 * (a * 4096 + b * 64 + c) := by ring
  rw [e, ← this]

/-- Masking with `0x3F` keeps the remainder modulo 64. -/
theorem and_mask_eq_mod (x : Nat) : x &&& 0x3F = x % 64 := by
  have := Nat.and_pow_two_sub_one_eq_mod x 6
  norm_num at this
  exact this


/-- The decoder on an alphabet character: the fourth value of a quantum writes
three bytes and starts the next quantum, an earlier one is stored. -/
theorem decode_encodeByte (i : Nat) (h : i < 64) (rest : GoString) (dbuf : List Nat) :
    decode (encodeByte i :: rest) dbuf =
      if dbuf.length = 3 then
        (decode rest []).map (fun tl => quantumBytes (dbuf ++ [i]) 4 ++ tl)
      else decode rest (dbuf ++ [i]) := by
  have h1 : decodeMap (encodeByte i) = i := decodeMap_encodeByte_lt i h
  have h2 : i ≠ 255 := by omega
  rw [decode]
  simp only [h1, ne_eq, h2, not_false_eq_true, if_true]

/-- The byte with a given value. -/
theorem toByte_val (a : Byte) (n : Nat) (h : n % 256 = a.val) : toByte n = a := by
  apply Fin.ext
  simp [toByte, Fin.ofNat, h]

/-- The four characters of three bytes decode to the three bytes. -/
theorem quantumBytes_full (a b c : Byte) :
    quantumBytes
      [(a.val <<< 16 ||| b.val <<< 8 ||| c.val) >>> 18 &&& 0x3F,
       (a.val <<< 16 ||| b.val <<< 8 ||| c.val) >>> 12 &&& 0x3F,
       (a.val <<< 16 ||| b.val <<< 8 ||| c.val) >>> 6 &&& 0x3F,
       (a.val <<< 16 ||| b.val <<< 8 ||| c.val) &&& 0x3F] 4 = [a, b, c] := by
  have ha := a.isLt
  have hb := b.isLt
  have hc := c.isLt
  simp only [quantumBytes, shift_or_bytes3 _ _ _ hb hc, and_mask_eq_mod,
    Nat.shiftRight_eq_div_pow, List.getD_cons_zero, List.getD_cons_succ]
  rw [shift_or_sextets _ _ _ _ (Nat.mod_lt _ (by norm_num)) (Nat.mod_lt _ (by norm_num))
    (Nat.mod_lt _ (by norm_num))]
  norm_num
  refine ⟨?_, ?_, ?_⟩ <;> apply toByte_val <;> omega


/-- Two bytes packed with shifts and bitwise or are their sum with weights. -/
theorem shift_or_bytes2 (a b : Nat) (hb : b < 256) :
    a <<< 16 ||| b <<< 8 = a * 65536 + b * 256 := by
  have := shift_or_bytes3 a b 0 hb (by norm_num)
  simpa using this

/-- The three characters of a remainder of two bytes decode to the two bytes. -/
theorem quantumBytes_two (a b : Byte) :
    quantumBytes
      [(a.val <<< 16 ||| b.val <<< 8) >>> 18 &&& 0x3F,
       (a.val <<< 16 ||| b.val <<< 8) >>> 12 &&& 0x3F,
       (a.val <<< 16 ||| b.val <<< 8) >>> 6 &&& 0x3F] 3 = [a, b] := by
  have ha := a.isLt
  have hb := b.isLt
  simp only [quantumBytes, shift_or_bytes2 _ _ hb, and_mask_eq_mod, Nat.shiftRight_eq_div_pow,
    List.getD_cons_zero, List.getD_cons_succ, List.getD_nil]
  rw [shift_or_sextets _ _ _ _ (Nat.mod_lt _ (by norm_num)) (Nat.mod_lt _ (by norm_num))
    (by norm_num)]
  norm_num
  refine ⟨?_, ?_⟩ <;> apply toByte_val <;> omega

/-- The two characters of a remainder of one byte decode to the byte. -/
theorem quantumBytes_one (a : Byte) :
    quantumBytes [(a.val <<< 16) >>> 18 &&& 0x3F, (a.val <<< 16) >>> 12 &&& 0x3F] 2 = [a] := by
  have ha := a.isLt
  simp only [quantumBytes, Nat.shiftLeft_eq, and_mask_eq_mod, Nat.shiftRight_eq_div_pow,
    List.getD_cons_zero, List.getD_cons_succ, List.getD_nil]
  have e := shift_or_sextets (a.val * 2 ^ 16 / 2 ^ 18 % 64) (a.val * 2 ^ 16 / 2 ^ 12 % 64) 0 0
    (Nat.mod_lt _ (by norm_num)) (by norm_num) (by norm_num)
  simp only [Nat.shiftLeft_eq] at e
  rw [e]
  norm_num
  apply toByte_val
  omega

/-- The decoder on a padding character after three values of a quantum. -/
theorem decode_pad_three (rest : GoString) (dbuf : List Nat) (h : dbuf.length = 3) :
    decode (padChar :: rest) dbuf =
      if skipNewlines rest = [] then some (quantumBytes dbuf 3) else none := by
  have h1 : decodeMap padChar = 255 := by decide
  have h2 : ¬ (padChar = 10 ∨ padChar = 13) := by decide
  rw [decode]
  simp [h1, h2, h]

/-- The decoder on two padding characters after two values of a quantum. -/
theorem decode_pad_two (rest : GoString) (dbuf : List Nat) (h : dbuf.length = 2) :
    decode (padChar :: padChar :: rest) dbuf =
      if skipNewlines rest = [] then some (quantumBytes dbuf 2) else none := by
  have h1 : decodeMap padChar = 255 := by decide
  have h2 : ¬ (padChar = 10 ∨ padChar = 13) := by decide
  rw [decode]
  simp [h1, h2, h, skipNewlines]

/-- A masked value is below 64. -/
theorem and_mask_lt (x : Nat) : x &&& 0x3F < 64 := by
  rw [and_mask_eq_mod]; exact Nat.mod_lt _ (by norm_num)

/-- The decoder accepts every encoded string and returns the bytes encoded. -/
theorem decode_EncodeToString (s : GoString) : decode (EncodeToString s) [] = some s := by
  induction s using EncodeToString.induct with
  | case1 a b c rest ih =>
    rw [EncodeToString]
    simp only [decode_encodeByte _ (and_mask_lt _), List.length_nil, List.length_cons,
      List.nil_append, List.cons_append, ih]
    simp [quantumBytes_full]
  | case2 a b =>
    rw [EncodeToString]
    simp only [decode_encodeByte _ (and_mask_lt _), List.length_nil, List.length_cons,
      List.nil_append, List.cons_append]
    simp [decode_pad_three, skipNewlines, quantumBytes_two]
  | case3 a =>
    rw [EncodeToString]
    simp only [decode_encodeByte _ (and_mask_lt _), List.length_nil, List.length_cons,
      List.nil_append, List.cons_append]
    simp [decode_pad_two, skipNewlines, quantumBytes_one]
  | case4 => simp [EncodeToString, decode]

mutual

/-- On a tree of strings `deepinJSON` returns a tree of the same shape whose
leaves are the codec applied to the leaves of the input, in order. -/
theorem deepinJSON_strings : ∀ (T : JSON) (encode : Bool), T.stringLeaves = true →
    ∃ U, deepinJSON T encode = some U ∧ U.shape = T.shape ∧
      U.leaves = T.leaves.map (fun s => if encode then b64Encode s else b64Decode s)
  | .obj kvs, encode, h => by
    rw [JSON.stringLeaves] at h
    obtain ⟨m, h1, h2, h3⟩ := deepinMap_strings kvs encode h
    exact ⟨.obj m, by simp [deepinJSON, h1], by simp [JSON.shape, h2], by simp [JSON.leaves, h3]⟩
  | .arr xs, encode, h => by
    rw [JSON.stringLeaves] at h
    obtain ⟨m, h1, h2, h3⟩ := deepinSlice_strings xs encode h
    exact ⟨.arr m, by simp [deepinJSON, h1], by simp [JSON.shape, h2], by simp [JSON.leaves, h3]⟩
  | .str s, encode, _ => by
    cases encode <;> simp [deepinJSON, JSON.shape, JSON.leaves]
  | .null, _, h => by simp [JSON.stringLeaves] at h
  | .bool _, _, h => by simp [JSON.stringLeaves] at h
  | .num _, _, h => by simp [JSON.stringLeaves] at h

/-- The map loop of `deepinJSON` on entries whose trees hold only strings. -/
theorem deepinMap_strings : ∀ (kvs : List (GoString × JSON)) (encode : Bool),
    JSON.stringLeavesMap kvs = true →
    ∃ m, deepinMap kvs encode = some m ∧ JSON.shapeMap m = JSON.shapeMap kvs ∧
      JSON.leavesMap m =
        (JSON.leavesMap kvs).map (fun s => if encode then b64Encode s else b64Decode s)
  | [], encode, _ => ⟨[], by simp [deepinMap], rfl, by simp [JSON.leavesMap]⟩
  | (k, v) :: rest, encode, h => by
    rw [JSON.stringLeavesMap, Bool.and_eq_true] at h
    obtain ⟨w, h1, h2, h3⟩ := deepinJSON_strings v encode h.1
    obtain ⟨m, g1, g2, g3⟩ := deepinMap_strings rest encode h.2
    exact ⟨(k, w) :: m, by simp [deepinMap, h1, g1], by simp [JSON.shapeMap, h2, g2],
      by simp [JSON.leavesMap, h3, g3]⟩

/-- The slice loop of `deepinJSON` on elements whose trees hold only strings. -/
theorem deepinSlice_strings : ∀ (xs : List JSON) (encode : Bool),
    JSON.stringLeavesSlice xs = true →
    ∃ m, deepinSlice xs encode = some m ∧ JSON.shapeSlice m = JSON.shapeSlice xs ∧
      JSON.leavesSlice m =
        (JSON.leavesSlice xs).map (fun s => if encode then b64Encode s else b64Decode s)
  | [], encode, _ => ⟨[], by simp [deepinSlice], rfl, by simp [JSON.leavesSlice]⟩
  | v :: rest, encode, h => by
    rw [JSON.stringLeavesSlice, Bool.and_eq_true] at h
    obtain ⟨w, h1, h2, h3⟩ := deepinJSON_strings v encode h.1
    obtain ⟨m, g1, g2, g3⟩ := deepinSlice_strings rest encode h.2
    exact ⟨w :: m, by simp [deepinSlice, h1, g1], by simp [JSON.shapeSlice, h2, g2],
      by simp [JSON.leavesSlice, h3, g3]⟩

end

/-- The encoding of a string is empty exactly when the string is. -/
theorem EncodeToString_length_eq_zero (s : GoString) :
    (EncodeToString s).length = 0 ↔ s.length = 0 := by
  match s with
  | [] => simp [EncodeToString]
  | [a] => simp [EncodeToString]
  | [a, b] => simp [EncodeToString]
  | a :: b :: c :: rest => simp [EncodeToString]

/-- Assigning to the element right after a given front part of a list. -/
theorem modify_length_append {α : Type} (f : α → α) (x : α) (xs : List α) :
    ∀ pre : List α, (pre ++ x :: xs).modify f pre.length = pre ++ f x :: xs
  | [] => by simp
  | p :: pre => by simp [modify_length_append f x xs pre]

/-- A loop over the indexed elements of a list that assigns to each index a value
computed from the element ranged over and the element in place maps the
list. -/
theorem foldl_modify_enumFrom {α : Type} (h : α → α → α) :
    ∀ (l pre : List α),
      (l.enumFrom pre.length).foldl (fun acc p => acc.modify (h p.2) p.1) (pre ++ l) =
        pre ++ l.map (fun x => h x x)
  | [], pre => by simp
  | x :: xs, pre => by
    have ih := foldl_modify_enumFrom h xs (pre ++ [h x x])
    simp only [List.length_append, List.length_singleton, List.append_assoc,
      List.singleton_append] at ih
    simp only [List.enumFrom_cons, List.foldl_cons, modify_length_append, List.map_cons]
    exact ih

/-- Successive assignments to one index are one assignment of the composed
update. -/
theorem foldl_modify_same {α β : Type} (F : β → α → α) (i : Nat) :
    ∀ (js : List β) (acc : List α),
      js.foldl (fun acc p => acc.modify (F p) i) acc =
        acc.modify (fun x => js.foldl (fun y p => F p y) x) i
  | [], acc => by
    simp only [List.foldl_nil]
    exact (List.modify_id i acc).symm
  | j :: js, acc => by
    simp only [List.foldl_cons]
    rw [foldl_modify_same F i js, List.modify_modify_eq]
    rfl

/-- The cell loop of `ScanData.convert` on row `i` is one assignment to that
row: its cells are updated index by index. -/
theorem convertCells_eq (i : Nat) (cell : List CellData) (row : List RowData) :
    convertCells i cell row =
      row.modify (fun x =>
        { x with Cell := (cell.enum.foldl (fun cs jc =>
            cs.modify (fun y =>
              { y with Column := b64Decode jc.2.Column, Value := b64Decode jc.2.Value }) jc.1)
            x.Cell) }) i := by
  unfold convertCells
  have step : ∀ (acc : List RowData) (jc : Nat × CellData),
      (acc.modify (fun x =>
          { x with Cell := x.Cell.modify (fun y => { y with Column := b64Decode jc.2.Column }) jc.1 })
          i).modify (fun x =>
          { x with Cell := x.Cell.modify (fun y => { y with Value := b64Decode jc.2.Value }) jc.1 }) i =
      acc.modify (fun x =>
          { x with Cell := x.Cell.modify (fun y =>
              { y with Column := b64Decode jc.2.Column, Value := b64Decode jc.2.Value }) jc.1 }) i := by
    intro acc jc
    rw [List.modify_modify_eq]
    congr 1
    funext x
    simp only [Function.comp_apply, List.modify_modify_eq]
    rfl
  simp only [step]
  rw [foldl_modify_same (fun (jc : Nat × CellData) (x : RowData) =>
      { x with Cell := x.Cell.modify (fun y =>
          { y with Column := b64Decode jc.2.Column, Value := b64Decode jc.2.Value }) jc.1 }) i]
  congr 1
  funext x
  generalize cell.enum = js
  induction js generalizing x with
  | nil => rfl
  | cons j js ih => simp only [List.foldl_cons]; rw [ih]

/-- The loops of `ScanData.convert` decode every key, column and value in place
and leave the timestamps, the order of the rows and the order of the cells. -/
theorem convertRows_eq (row : List RowData) :
    convertRows row =
      row.map (fun r =>
        { Key := b64Decode r.Key
          Cell := r.Cell.map (fun c =>
            { Column := b64Decode c.Column, Timestamp := c.Timestamp, Value := b64Decode c.Value }) }) := by
  unfold convertRows
  simp only [convertCells_eq, List.modify_modify_eq]
  have h := foldl_modify_enumFrom (fun (r x : RowData) =>
      ((fun x : RowData => { x with Cell := (r.Cell.enum.foldl (fun cs jc =>
            cs.modify (fun y =>
              { y with Column := b64Decode jc.2.Column, Value := b64Decode jc.2.Value }) jc.1)
            x.Cell) }) ∘ (fun x : RowData => { x with Key := b64Decode r.Key })) x) row []
  simp only [List.length_nil, List.nil_append] at h
  rw [List.enum]
  refine h.trans ?_
  apply List.map_congr_left
  intro r _
  have hc := foldl_modify_enumFrom (fun (c y : CellData) =>
      { y with Column := b64Decode c.Column, Value := b64Decode c.Value }) r.Cell []
  simp only [List.length_nil, List.nil_append] at hc
  simp only [Function.comp_apply, List.enum, hc]

/-- The inner loop of `Put` from the pair `j` on, with enough fuel for the
remaining pairs: it appends the cells of the pairs `j, j+1, ...` of the
record, `(len(d) - 1) / 2` pairs in all. -/
theorem putCells_pairs (d : List GoString) :
    ∀ (m j fuel : Nat) (cell : List JSON), j + m = (d.length - 1) / 2 → m ≤ fuel →
      putCells d fuel (2 * j + 1) cell =
        some (cell ++ (List.range' j m).map (fun j =>
          JSON.obj [(ascii "column", .str (b64Encode (d.getD (2 * j + 1) []))),
            (ascii "$", .str (b64Encode (d.getD (2 * j + 2) [])))]))
  | 0, j, fuel, cell, hj, _ => by
    have hlen : ¬ (2 * j + 1 < (d.drop 1).length) := by simp; omega
    cases fuel with
    | zero => simp [putCells]
    | succ f => rw [putCells, if_neg hlen]; simp
  | m + 1, j, fuel, cell, hj, hf => by
    cases fuel with
    | zero => omega
    | succ f =>
      have hlen : 2 * j + 1 < (d.drop 1).length := by simp; omega
      have h1 : 2 * j + 1 < d.length := by omega
      have h2 : 2 * j + 1 + 1 < d.length := by omega
      have ih := putCells_pairs d m (j + 1) f
        (cell ++ [JSON.obj [(ascii "column", .str (b64Encode (d.getD (2 * j + 1) []))),
            (ascii "$", .str (b64Encode (d.getD (2 * j + 2) [])))]]) (by omega) (by omega)
      have e : 2 * (j + 1) + 1 = 2 * j + 1 + 2 := by ring
      rw [e] at ih
      rw [putCells, if_pos hlen]
      simp only [List.get?_eq_getElem?, List.getElem?_eq_getElem h1, List.getElem?_eq_getElem h2]
      have g1 : d.getD (2 * j + 1) [] = d[2 * j + 1] := by
        simp [List.getD_eq_getElem?_getD, List.getElem?_eq_getElem h1]
      have g2 : d.getD (2 * j + 2) [] = d[2 * j + 1 + 1] := by
        simp [List.getD_eq_getElem?_getD, List.getElem?_eq_getElem h2]
      rw [g1, g2] at ih
      rw [ih]
      have g3 : d[2 * j + 2]? = some d[2 * j + 1 + 1] := List.getElem?_eq_getElem h2
      simp [List.range'_succ, List.getElem?_eq_getElem h1, g3]

/-- The outer loop of `Put` on records that are not empty: one row for each
record, in order, after the rows already there. -/
theorem putRows_rows : ∀ (datas : List (List GoString)) (rows : List JSON),
    (∀ d ∈ datas, d ≠ []) →
    putRows datas rows =
      some (rows ++ datas.map (fun d =>
        JSON.obj [(ascii "key", JSON.str (b64Encode (d.getD 0 []))),
          (ascii "Cell", JSON.arr ((List.range ((d.length - 1) / 2)).map (fun j =>
            JSON.obj [(ascii "column", JSON.str (b64Encode (d.getD (2 * j + 1) []))),
              (ascii "$", JSON.str (b64Encode (d.getD (2 * j + 2) [])))])))]))
  | [], rows, _ => by simp [putRows]
  | d :: rest, rows, h => by
    have hd : d ≠ [] := h d (List.mem_cons_self _ _)
    have hrest : ∀ x ∈ rest, x ≠ [] := fun x hx => h x (List.mem_cons_of_mem _ hx)
    have hc := putCells_pairs d ((d.length - 1) / 2) 0 d.length [] (by omega) (by omega)
    have h0 : ¬ d.length < 1 := by
      cases d with
      | nil => exact absurd rfl hd
      | cons x xs => simp
    have hk : d.get? 0 = some (d.getD 0 []) := by
      cases d with
      | nil => exact absurd rfl hd
      | cons x xs => simp
    simp only [Nat.mul_zero, Nat.zero_add, List.nil_append] at hc
    rw [putRows, if_neg h0, hc, hk]
    simp only []
    rw [putRows_rows rest _ hrest]
    simp [List.range_eq_range']

set_option maxRecDepth 100000 in
/-- A byte the decoding table knows is an alphabet character, and neither a line
break nor padding. -/
theorem decodeMap_known : ∀ c : Byte, decodeMap c ≠ 255 →
    isAlphabet c = true ∧ c ≠ 10 ∧ c ≠ 13 ∧ c ≠ padChar := by decide

set_option maxRecDepth 100000 in
/-- A byte the decoding table does not know is no alphabet character. -/
theorem decodeMap_unknown : ∀ c : Byte, decodeMap c = 255 → isAlphabet c = false := by decide

/-- Skipping leading line breaks and removing all line breaks agree on the first
byte that is kept. -/
theorem stripNewlines_skip : ∀ l : GoString,
    (skipNewlines l = [] ∧ stripNewlines l = []) ∨
      ∃ p r, skipNewlines l = p :: r ∧ ¬ (p = 10 ∨ p = 13) ∧ stripNewlines l = p :: stripNewlines r
  | [] => Or.inl ⟨rfl, rfl⟩
  | x :: xs => by
    by_cases hx : x = 10 ∨ x = 13
    · have ih := stripNewlines_skip xs
      have e1 : skipNewlines (x :: xs) = skipNewlines xs := by rw [skipNewlines, if_pos hx]
      have e2 : stripNewlines (x :: xs) = stripNewlines xs := by
        unfold stripNewlines
        rw [List.filter_cons_of_neg (by
          simp only [decide_not, Bool.not_eq_true', decide_eq_false_iff_not, not_not]
          exact hx)]
      rw [e1, e2]
      exact ih
    · refine Or.inr ⟨x, xs, ?_, hx, ?_⟩
      · rw [skipNewlines, if_neg hx]
      · unfold stripNewlines
        rw [List.filter_cons_of_pos (by simpa using hx)]

/-- An alphabet character at any place of a group counts as any other. -/
theorem groups_alphabet (c : Byte) (hc : isAlphabet c = true) (hp : c ≠ padChar) (l : GoString) :
    wellFormedGroups (c :: l) = wellFormedGroups (65 :: l) ∧
    wellFormedGroups (65 :: c :: l) = wellFormedGroups (65 :: 65 :: l) ∧
    wellFormedGroups (65 :: 65 :: c :: l) = wellFormedGroups (65 :: 65 :: 65 :: l) ∧
    wellFormedGroups (65 :: 65 :: 65 :: c :: l) = wellFormedGroups l := by
  have hA : isAlphabet 65 = true := by decide
  have hAp : (65 : Byte) ≠ padChar := by decide
  refine ⟨?_, ?_, ?_, ?_⟩
  · rcases l with _ | ⟨b, _ | ⟨c2, _ | ⟨d, r⟩⟩⟩ <;> simp [wellFormedGroups, hc, hA]
  · rcases l with _ | ⟨c2, _ | ⟨d, r⟩⟩ <;> simp [wellFormedGroups, hc, hA]
  · rcases l with _ | ⟨d, r⟩ <;> simp [wellFormedGroups, hc, hA, hp, hAp]
  · simp [wellFormedGroups, hc, hA, hp, hAp]

/-- A byte that is neither of the alphabet nor padding spoils the group it is
in. -/
theorem groups_other (c : Byte) (hc : isAlphabet c = false) (hp : c ≠ padChar) (l : GoString) :
    wellFormedGroups (c :: l) = false ∧
    wellFormedGroups (65 :: c :: l) = false ∧
    wellFormedGroups (65 :: 65 :: c :: l) = false ∧
    wellFormedGroups (65 :: 65 :: 65 :: c :: l) = false := by
  refine ⟨?_, ?_, ?_, ?_⟩
  · rcases l with _ | ⟨b, _ | ⟨c2, _ | ⟨d, r⟩⟩⟩ <;> simp [wellFormedGroups, hc]
  · rcases l with _ | ⟨c2, _ | ⟨d, r⟩⟩ <;> simp [wellFormedGroups, hc]
  · rcases l with _ | ⟨d, r⟩ <;> simp [wellFormedGroups, hc, hp]
  · simp [wellFormedGroups, hc, hp]

/-- Padding is well formed only as the end of the text: `==` after two
characters of a group or `=` after three. -/
theorem groups_pad (l : GoString) :
    wellFormedGroups (padChar :: l) = false ∧
    wellFormedGroups (65 :: padChar :: l) = false ∧
    (wellFormedGroups (65 :: 65 :: padChar :: l) = true ↔ l = [padChar]) ∧
    (wellFormedGroups (65 :: 65 :: 65 :: padChar :: l) = true ↔ l = []) := by
  have hA : isAlphabet 65 = true := by decide
  have hP : isAlphabet padChar = false := by decide
  refine ⟨?_, ?_, ?_, ?_⟩
  · rcases l with _ | ⟨b, _ | ⟨c2, _ | ⟨d, r⟩⟩⟩ <;> simp [wellFormedGroups, hP]
  · rcases l with _ | ⟨c2, _ | ⟨d, r⟩⟩ <;> simp [wellFormedGroups, hP]
  · rcases l with _ | ⟨d, r⟩ <;> simp [wellFormedGroups, hA, hP]
  · simp [wellFormedGroups, hA, hP]

/-- The decoder, with `dbuf` holding the values of the quantum being read,
accepts exactly the input that completes those characters to well-formed
groups, line breaks aside. -/
theorem decode_isSome : ∀ (s : GoString) (dbuf : List Nat), dbuf.length ≤ 3 →
    ((decode s dbuf).isSome = true ↔
      wellFormedGroups (List.replicate dbuf.length 65 ++ stripNewlines s) = true)
  | [], dbuf, h => by
    rcases dbuf with _ | ⟨a, _ | ⟨b, _ | ⟨c, _ | ⟨d, r⟩⟩⟩⟩ <;>
      simp [decode, stripNewlines, wellFormedGroups, List.replicate] at h ⊢
  | x :: rest, dbuf, h => by
    rw [decode]
    by_cases h1 : decodeMap x ≠ 255
    · obtain ⟨ha, hn1, hn2, hp⟩ := decodeMap_known x h1
      have hs : stripNewlines (x :: rest) = x :: stripNewlines rest := by
        simp [stripNewlines, List.filter_cons, hn1, hn2]
      obtain ⟨g0, g1, g2, g3⟩ := groups_alphabet x ha hp (stripNewlines rest)
      rw [if_pos h1, hs]
      by_cases h3 : dbuf.length = 3
      · rw [if_pos h3, h3]
        have ih := decode_isSome rest [] (by simp)
        simp only [List.length_nil, List.replicate, List.nil_append] at ih
        simp only [Option.isSome_map', ih, List.replicate, List.cons_append, List.nil_append, g3]
      · rw [if_neg h3]
        have ih := decode_isSome rest (dbuf ++ [decodeMap x]) (by simp; omega)
        rw [ih]
        rcases dbuf with _ | ⟨a, _ | ⟨b, _ | ⟨c, r⟩⟩⟩
        · simp [List.replicate, g0]
        · simp [List.replicate, g1]
        · simp [List.replicate, g2]
        · exfalso
          simp only [List.length_cons] at h h3
          omega
    · rw [if_neg h1]
      have hna : isAlphabet x = false := decodeMap_unknown x (not_not.1 h1)
      by_cases h2 : x = 10 ∨ x = 13
      · rw [if_pos h2]
        have hs : stripNewlines (x :: rest) = stripNewlines rest := by
          unfold stripNewlines
          rw [List.filter_cons_of_neg (by
            simp only [decide_not, Bool.not_eq_true', decide_eq_false_iff_not, not_not]
            exact h2)]
        rw [hs]
        exact decode_isSome rest dbuf h
      · rw [if_neg h2]
        have hs : stripNewlines (x :: rest) = x :: stripNewlines rest := by
          unfold stripNewlines
          rw [List.filter_cons_of_pos (by simpa using h2)]
        rw [hs]
        by_cases h4 : x ≠ padChar
        · rw [if_pos h4]
          obtain ⟨g0, g1, g2, g3⟩ := groups_other x hna h4 (stripNewlines rest)
          rcases dbuf with _ | ⟨a, _ | ⟨b, _ | ⟨c, _ | ⟨d, r⟩⟩⟩⟩
          · simp [List.replicate, g0]
          · simp [List.replicate, g1]
          · simp [List.replicate, g2]
          · simp [List.replicate, g3]
          · exfalso
            simp only [List.length_cons] at h
            omega
        · rw [if_neg h4]
          have hx : x = padChar := not_not.1 h4
          subst hx
          obtain ⟨g0, g1, g2, g3⟩ := groups_pad (stripNewlines rest)
          rcases dbuf with _ | ⟨a, _ | ⟨b, _ | ⟨c, _ | ⟨d, r⟩⟩⟩⟩
          · simp [List.replicate, g0]
          · simp [List.replicate, g1]
          · simp only [List.length_cons, List.length_nil, List.replicate, List.cons_append,
              List.nil_append, g2]
            rcases stripNewlines_skip rest with ⟨e1, e2⟩ | ⟨p, r, e1, hp, e2⟩
            · simp [e1, e2]
            · rw [e2]
              simp only [e1]
              by_cases hpp : p ≠ padChar
              · simp [hpp]
              · have hp2 : p = padChar := not_not.1 hpp
                rw [if_neg hpp]
                rcases stripNewlines_skip r with ⟨f1, f2⟩ | ⟨q, r2, f1, hq, f2⟩
                · simp [f1, f2, hp2]
                · simp [f1, f2, hp2]
          · simp only [List.length_cons, List.length_nil, List.replicate, List.cons_append,
              List.nil_append, g3]
            rcases stripNewlines_skip rest with ⟨e1, e2⟩ | ⟨p, r, e1, hp, e2⟩
            · simp [e1, e2]
            · simp [e1, e2]
          · exfalso
            simp only [List.length_cons] at h
            omega

/-- The decoder returns an error exactly on the strings that are not valid
standard base64. -/
theorem DecodeString_eq_none_iff (s : GoString) :
    DecodeString s = none ↔ validStdBase64 s = false := by
  have h := decode_isSome s [] (by simp)
  simp only [List.length_nil, List.replicate, List.nil_append] at h
  unfold DecodeString validStdBase64
  cases hd : decode s [] with
  | none =>
    rw [hd] at h
    simp at h
    simp [h]
  | some out =>
    rw [hd] at h
    simp at h
    simp [h]

/-- A string the decoder rejects is decoded to the fixed text. -/
theorem b64Decode_eq_sentinel_of_none (s : GoString) (h : DecodeString s = none) :
    b64Decode s = ascii "invalid base64" := by
  simp [b64Decode, h]

/-! ## Codec -/

/-- C6. Decoding undoes encoding: for every byte string `s`, also the empty
one, `b64Decode (b64Encode s) = s`. -/
theorem b64Decode_b64Encode (s : GoString) : b64Decode (b64Encode s) = s := by
  simp [b64Decode, b64Encode, DecodeString, decode_EncodeToString]

/-- C7. On a tree whose leaves are all strings `deepinJSON` returns, in both
directions, a tree of the same shape (same keys under every map, same length
and order of every slice, same nesting) whose leaves are, in order, the codec
applied once to the leaves of the input; on a map `encodeJSON` and
`decodeJSON` return the entries of that tree. -/
theorem deepinJSON_preserves_structure (T : JSON) (encode : Bool)
    (h : T.stringLeaves = true) :
    ∃ U, deepinJSON T encode = some U ∧ U.shape = T.shape ∧
      U.leaves = T.leaves.map (fun s => if encode then b64Encode s else b64Decode s) ∧
      ∀ obj, T = JSON.obj obj →
        ∃ m, U = JSON.obj m ∧ (if encode then encodeJSON obj else decodeJSON obj) = some m := by
  obtain ⟨U, h1, h2, h3⟩ := deepinJSON_strings T encode h
  refine ⟨U, h1, h2, h3, ?_⟩
  intro obj hT
  subst hT
  rw [deepinJSON] at h1
  cases hm : deepinMap obj encode with
  | none => simp [hm] at h1
  | some m =>
    simp only [hm, Option.map_some', Option.some.injEq] at h1
    refine ⟨m, h1.symm, ?_⟩
    cases encode <;> simp [encodeJSON, decodeJSON, deepinJSON, hm]

/-- Witness of C7: the sample tree, whose one leaf is malformed, is decoded
leaf by leaf. -/
theorem deepinJSON_preserves_structure_witness :
    ∃ U, deepinJSON sampleTree false = some U ∧ U.shape = sampleTree.shape ∧
      U.leaves = sampleTree.leaves.map (fun s => if false then b64Encode s else b64Decode s) ∧
      ∀ obj, sampleTree = JSON.obj obj →
        ∃ m, U = JSON.obj m ∧ (if false then encodeJSON obj else decodeJSON obj) = some m :=
  deepinJSON_preserves_structure sampleTree false rfl

/-! ## Scanner configuration -/

/-- C9. `Scanner.convert` writes `startRow` and `endRow` exactly when the field
is not empty, with the base64 of the field as value, and `batch` and `filter`
exactly when they are set (a batch other than zero, a filter with an entry),
with the value as given; the keys of the payload are the keys of the fields
that are set, in that order, and the empty scanner has no key. -/
theorem Scanner_convert_payload (s : Scanner) :
    s.convert.field (ascii "startRow") =
        (if s.StartRow.length = 0 then none else some (JSON.str (b64Encode s.StartRow))) ∧
      s.convert.field (ascii "endRow") =
        (if s.EndRow.length = 0 then none else some (JSON.str (b64Encode s.EndRow))) ∧
      s.convert.field (ascii "batch") =
        (if s.Batch = 0 then none else some (JSON.num s.Batch)) ∧
      s.convert.field (ascii "filter") =
        (if s.Filter.length = 0 then none else some (JSON.obj s.Filter)) ∧
      s.convert.keys =
        (if s.Batch = 0 then [] else [ascii "batch"]) ++
        (if s.StartRow.length = 0 then [] else [ascii "startRow"]) ++
        (if s.EndRow.length = 0 then [] else [ascii "endRow"]) ++
        (if s.Filter.length = 0 then [] else [ascii "filter"]) ∧
      Scanner.convert ⟨0, [], [], []⟩ = JSON.obj [] := by
  have k1 : ascii "batch" ≠ ascii "startRow" := by decide
  have k2 : ascii "batch" ≠ ascii "endRow" := by decide
  have k3 : ascii "batch" ≠ ascii "filter" := by decide
  have k4 : ascii "startRow" ≠ ascii "endRow" := by decide
  have k5 : ascii "startRow" ≠ ascii "filter" := by decide
  have k6 : ascii "endRow" ≠ ascii "filter" := by decide
  have e1 : (b64Encode s.StartRow).length = 0 ↔ s.StartRow.length = 0 :=
    EncodeToString_length_eq_zero _
  have e2 : (b64Encode s.EndRow).length = 0 ↔ s.EndRow.length = 0 :=
    EncodeToString_length_eq_zero _
  refine ⟨?_, ?_, ?_, ?_, ?_, rfl⟩ <;>
    simp only [Scanner.convert, Scanner.marshal, JSON.field, JSON.keys, e1, e2] <;>
    by_cases h1 : s.Batch = 0 <;> by_cases h2 : s.StartRow.length = 0 <;>
    by_cases h3 : s.EndRow.length = 0 <;> by_cases h4 : s.Filter.length = 0 <;>
    simp [h1, h2, h3, h4, k1, k2, k3, k4, k5, k6, k1.symm, k2.symm, k3.symm, k4.symm, k5.symm,
      k6.symm, List.find?]

/-! ## Scan -/

/-- C2. When the open leg is answered with status 201 and a location `L` and
the fetch leg with status 200 and a body the parser reads as scan data, `Scan`
returns the rows of that data in order, the cells of each row in order, every
key, column and value decoded and every timestamp as received; after the `PUT`
it makes one `GET`, sent to `L` itself, and it starts one `DELETE`, to `L`
itself. -/
theorem Scan_success (r : Row) (t : Transport) (Decode : GoString → Except GoString ScanData)
    (table : GoString) (scanner : Scanner) (res res2 : Response) (sd : ScanData)
    (hopen : r.parent.dial t [] (ascii "PUT") (ascii "/" ++ table ++ ascii "/scanner")
      (some scanner.convert) false = .response res)
    (h201 : res.StatusCode = 201)
    (hget : r.parent.dial t
      [r.parent.request (ascii "PUT") (ascii "/" ++ table ++ ascii "/scanner")
        (some scanner.convert) false]
      (ascii "GET") res.Location none true = .response res2)
    (h200 : res2.StatusCode = 200)
    (hbody : Decode res2.Body = .ok sd) :
    Row.Scan r t Decode table scanner =
      ⟨.ok (sd.Row.map (fun row =>
          { Key := b64Decode row.Key
            Cell := row.Cell.map (fun c =>
              { Column := b64Decode c.Column, Timestamp := c.Timestamp,
                Value := b64Decode c.Value }) })),
        [⟨ascii "PUT", r.parent.URL ++ (ascii "/" ++ table ++ ascii "/scanner"),
            some scanner.convert, bodyHeader⟩,
          ⟨ascii "GET", res.Location, none, acceptHeader⟩],
        [⟨ascii "DELETE", res.Location, none, acceptHeader⟩]⟩ := by
  unfold Row.Scan
  simp only [hopen, hget, h201, h200, ne_eq, not_true_eq_false, if_false, ScanData.convert, hbody,
    convertRows_eq]
  rfl

/-- Witness of C2: the sample gateway creates the scanner
`http://host/table/scanner/123` and serves one row with two cells. -/
theorem Scan_success_witness :
    Row.Scan sampleRow scanTransport sampleDecode (ascii "table") ⟨0, [], [], []⟩ =
      ⟨.ok (sampleScanData.Row.map (fun row =>
          { Key := b64Decode row.Key
            Cell := row.Cell.map (fun c =>
              { Column := b64Decode c.Column, Timestamp := c.Timestamp,
                Value := b64Decode c.Value }) })),
        [⟨ascii "PUT", sampleRow.parent.URL ++ (ascii "/" ++ ascii "table" ++ ascii "/scanner"),
            some (Scanner.convert ⟨0, [], [], []⟩), bodyHeader⟩,
          ⟨ascii "GET", ascii "http://host/table/scanner/123", none, acceptHeader⟩],
        [⟨ascii "DELETE", ascii "http://host/table/scanner/123", none, acceptHeader⟩]⟩ :=
  Scan_success sampleRow scanTransport sampleDecode (ascii "table") ⟨0, [], [], []⟩
    ⟨201, ascii "201 Created", ascii "http://host/table/scanner/123", []⟩
    ⟨200, ascii "200 OK", [], sampleBody⟩ sampleScanData rfl rfl rfl rfl (if_pos rfl)

/-- C5. No request follows a failed leg.  When the open leg is answered with a
status other than 201, `Scan` returns an error after that one request, with no
`GET` and no `DELETE`; when it is answered with 201 and the fetch leg with a
status other than 200, `Scan` returns an error after the two requests, with no
`DELETE`, and whatever the parser is (the body is not read). -/
theorem Scan_stops_after_failed_leg (r : Row) (t : Transport)
    (Decode : GoString → Except GoString ScanData) (table : GoString) (scanner : Scanner)
    (res : Response)
    (hopen : r.parent.dial t [] (ascii "PUT") (ascii "/" ++ table ++ ascii "/scanner")
      (some scanner.convert) false = .response res) :
    (res.StatusCode ≠ 201 →
      Row.Scan r t Decode table scanner =
        ⟨.error (ascii "put scan obj > " ++ res.Status),
          [⟨ascii "PUT", r.parent.URL ++ (ascii "/" ++ table ++ ascii "/scanner"),
            some scanner.convert, bodyHeader⟩], []⟩) ∧
    (res.StatusCode = 201 → ∀ res2 : Response,
      r.parent.dial t
        [r.parent.request (ascii "PUT") (ascii "/" ++ table ++ ascii "/scanner")
          (some scanner.convert) false]
        (ascii "GET") res.Location none true = .response res2 →
      res2.StatusCode ≠ 200 →
      Row.Scan r t Decode table scanner =
        ⟨.error (ascii "get scan obj > " ++ res2.Status),
          [⟨ascii "PUT", r.parent.URL ++ (ascii "/" ++ table ++ ascii "/scanner"),
              some scanner.convert, bodyHeader⟩,
            ⟨ascii "GET", res.Location, none, acceptHeader⟩], []⟩) := by
  constructor
  · intro h
    unfold Row.Scan
    simp only [hopen, ne_eq, h, not_false_eq_true, if_true]
    rfl
  · intro h res2 hget h2
    unfold Row.Scan
    simp only [hopen, hget, ne_eq, h, h2, not_true_eq_false, not_false_eq_true, if_true, if_false]
    rfl

/-- Witness of C5: a gateway that answers the open leg with 404, and one that
creates the scanner and answers the fetch leg with 500. -/
theorem Scan_stops_after_failed_leg_witness :
    Row.Scan sampleRow refusingTransport sampleDecode (ascii "table") ⟨0, [], [], []⟩ =
        ⟨.error (ascii "put scan obj > 404 Not Found"),
          [⟨ascii "PUT", ascii "http://host/table/scanner", some (JSON.obj []), bodyHeader⟩], []⟩ ∧
      Row.Scan sampleRow failingFetchTransport sampleDecode (ascii "table") ⟨0, [], [], []⟩ =
        ⟨.error (ascii "get scan obj > 500 Internal Server Error"),
          [⟨ascii "PUT", ascii "http://host/table/scanner", some (JSON.obj []), bodyHeader⟩,
            ⟨ascii "GET", ascii "http://host/table/scanner/123", none, acceptHeader⟩], []⟩ :=
  ⟨(Scan_stops_after_failed_leg sampleRow refusingTransport sampleDecode (ascii "table")
      ⟨0, [], [], []⟩ ⟨404, ascii "404 Not Found", [], []⟩ rfl).1 (by decide),
    (Scan_stops_after_failed_leg sampleRow failingFetchTransport sampleDecode (ascii "table")
      ⟨0, [], [], []⟩ ⟨201, ascii "201 Created", ascii "http://host/table/scanner/123", []⟩
      rfl).2 rfl ⟨500, ascii "500 Internal Server Error", [], []⟩ rfl (by decide)⟩

/-! ## Put -/

/-- The requests of `Put` once its rows are built and the batch has passed the
length check: the one `PUT` that carries all rows, whatever the answer. -/
theorem Put_requests_of_rows (r : Row) (t : Transport) (table : GoString)
    (datas : List (List GoString)) (rows : List JSON) (hlen : datas.length % 2 ≠ 0)
    (hrows : putRows datas [] = some rows) :
    (Row.Put r t table datas).requests =
      [⟨ascii "PUT", r.parent.URL ++ (ascii "/" ++ table ++ ascii "/putrow"),
        some (JSON.obj [(ascii "Row", JSON.arr rows)]), bodyHeader⟩] := by
  unfold Row.Put
  rw [if_neg hlen]
  simp only [hrows, fromJSON, Bool.false_eq_true, if_false]
  cases h : r.parent.dial t [] (ascii "PUT") (ascii "/" ++ table ++ ascii "/putrow")
      (some (JSON.obj [(ascii "Row", JSON.arr rows)])) false with
  | panic => rfl
  | error err => rfl
  | response res =>
    by_cases hs : res.StatusCode ≠ 200
    · simp only [if_pos hs]; rfl
    · simp only [if_neg hs]; rfl

/-- C4. For a record `d` of odd length `2k+1`, `Put` of the batch `[d]` sends one
payload with one row: its key is the base64 of `d[0]` and its cells are, for
`j = 0..k-1` in this order, the base64 of `d[2j+1]` as column and of `d[2j+2]`
as value. -/
theorem Put_single_record (r : Row) (t : Transport) (table : GoString) (d : List GoString)
    (k : Nat) (hd : d.length = 2 * k + 1) :
    (Row.Put r t table [d]).requests =
      [⟨ascii "PUT", r.parent.URL ++ (ascii "/" ++ table ++ ascii "/putrow"),
        some (JSON.obj [(ascii "Row", JSON.arr
          [JSON.obj [(ascii "key", JSON.str (b64Encode (d.getD 0 []))),
            (ascii "Cell", JSON.arr ((List.range k).map (fun j =>
              JSON.obj [(ascii "column", JSON.str (b64Encode (d.getD (2 * j + 1) []))),
                (ascii "$", JSON.str (b64Encode (d.getD (2 * j + 2) [])))])))]])]),
        bodyHeader⟩] := by
  apply Put_requests_of_rows
  · simp
  · have hrows := putRows_rows [d] [] (by
      intro x hx
      rw [List.mem_singleton] at hx
      subst hx
      intro hnil
      rw [hnil] at hd
      simp at hd)
    have hk : (d.length - 1) / 2 = k := by omega
    simpa [hk] using hrows

/-- Witness of C4: the record `rowkey, col1, val1, col2, val2` gives one row
with the cells `(col1, val1)` and `(col2, val2)`, in this order. -/
theorem Put_single_record_witness :
    (Row.Put sampleRow acceptingTransport (ascii "table")
        [[ascii "rowkey", ascii "col1", ascii "val1", ascii "col2", ascii "val2"]]).requests =
      [⟨ascii "PUT", ascii "http://host/table/putrow",
        some (JSON.obj [(ascii "Row", JSON.arr
          [JSON.obj [(ascii "key", JSON.str (ascii "cm93a2V5")),
            (ascii "Cell", JSON.arr
              [JSON.obj [(ascii "column", JSON.str (ascii "Y29sMQ==")),
                (ascii "$", JSON.str (ascii "dmFsMQ=="))],
               JSON.obj [(ascii "column", JSON.str (ascii "Y29sMg==")),
                (ascii "$", JSON.str (ascii "dmFsMg=="))]])]])]),
        bodyHeader⟩] :=
  Put_single_record sampleRow acceptingTransport (ascii "table")
    [ascii "rowkey", ascii "col1", ascii "val1", ascii "col2", ascii "val2"] 2 rfl

/-- C1, the code at the failing input.  The batch of the one record
`rowkey, col1`, of even length, is not rejected: for every dialer, transport
and table, `Put` sends a `PUT` with the row `rowkey` and no cell, and with a
gateway that answers 200 it returns without error. -/
theorem Put_sends_even_length_record (r : Row) (t : Transport) (table : GoString) :
    (Row.Put r t table [[ascii "rowkey", ascii "col1"]]).requests =
        [⟨ascii "PUT", r.parent.URL ++ (ascii "/" ++ table ++ ascii "/putrow"),
          some (JSON.obj [(ascii "Row", JSON.arr
            [JSON.obj [(ascii "key", JSON.str (ascii "cm93a2V5")), (ascii "Cell", JSON.arr [])]])]),
          bodyHeader⟩] ∧
      (Row.Put sampleRow acceptingTransport (ascii "table")
        [[ascii "rowkey", ascii "col1"]]).result = .ok () :=
  ⟨Put_requests_of_rows r t table _ _ (by decide) rfl, rfl⟩

/-- C3, the code at the failing input.  The batch of the two records `a` and
`b`, each of length one, is rejected: for every dialer, transport and table,
`Put` returns the error of the length check and sends nothing. -/
theorem Put_rejects_two_records (r : Row) (t : Transport) (table : GoString) :
    Row.Put r t table [[ascii "a"], [ascii "b"]] =
      ⟨.error (ascii "row put > datas len is not odd"), [], []⟩ :=
  rfl

/-! ## Leniency of decoding -/

/-- C8. A string that is not valid standard base64 is decoded to the fixed text
`invalid base64`, by a function that always returns; a tree of strings that
holds such a leaf is still decoded, to the same shape, every leaf to its own
`b64Decode`, the invalid one to the fixed text; and a scan body the parser
reads is converted without error, every key, column and value to its own
`b64Decode`. -/
theorem decoding_is_lenient (s : GoString) (hs : validStdBase64 s = false) :
    b64Decode s = ascii "invalid base64" ∧
      (∀ T : JSON, T.stringLeaves = true → s ∈ T.leaves →
        ∃ U, deepinJSON T false = some U ∧ U.shape = T.shape ∧
          U.leaves = T.leaves.map b64Decode ∧ ascii "invalid base64" ∈ U.leaves) ∧
      (∀ (Decode : GoString → Except GoString ScanData) (body : GoString) (sd : ScanData),
        Decode body = .ok sd →
        ScanData.convert Decode body =
          .ok (sd.Row.map (fun row =>
            { Key := b64Decode row.Key
              Cell := row.Cell.map (fun c =>
                { Column := b64Decode c.Column, Timestamp := c.Timestamp,
                  Value := b64Decode c.Value }) }))) := by
  have hsent : b64Decode s = ascii "invalid base64" :=
    b64Decode_eq_sentinel_of_none s ((DecodeString_eq_none_iff s).2 hs)
  refine ⟨hsent, ?_, ?_⟩
  · intro T hT hmem
    obtain ⟨U, h1, h2, h3⟩ := deepinJSON_strings T false hT
    simp only [Bool.false_eq_true, if_false] at h3
    refine ⟨U, h1, h2, h3, ?_⟩
    rw [h3, ← hsent]
    exact List.mem_map_of_mem _ hmem
  · intro Decode body sd hbody
    simp only [ScanData.convert, hbody, convertRows_eq]

/-- Witness of C8: the leaf `!!` of the sample tree and of the malformed scan
data is invalid; its siblings are decoded. -/
theorem decoding_is_lenient_witness :
    b64Decode (ascii "!!") = ascii "invalid base64" ∧
      (∃ U, deepinJSON sampleTree false = some U ∧ U.shape = sampleTree.shape ∧
        U.leaves = sampleTree.leaves.map b64Decode ∧ ascii "invalid base64" ∈ U.leaves) ∧
      ScanData.convert malformedDecode malformedBody =
        .ok [⟨ascii "rowkey", [⟨ascii "col1", 1, ascii "invalid base64"⟩,
          ⟨ascii "col2", 2, ascii "val2"⟩]⟩] :=
  ⟨(decoding_is_lenient (ascii "!!") (by decide)).1,
    (decoding_is_lenient (ascii "!!") (by decide)).2.1 sampleTree rfl (by decide),
    (decoding_is_lenient (ascii "!!") (by decide)).2.2 malformedDecode malformedBody
      malformedScanData (if_pos rfl)⟩

/-! ## The fixed text of a rejected leaf -/

/-- C10, counterexample.  The string `aW52YWxpZCBiYXNlNjQ=` is valid standard
base64, and `b64Decode` of it is the very text returned for an invalid
string. -/
theorem sentinel_is_decoded_content :
    validStdBase64 (ascii "aW52YWxpZCBiYXNlNjQ=") = true ∧
      b64Decode (ascii "aW52YWxpZCBiYXNlNjQ=") = ascii "invalid base64" := by
  decide

/-- C10, amended.  `b64Decode x` is the fixed text exactly when `x` is not valid
standard base64 or is valid with that text as content; among encoded strings
only the encoding of the fixed text itself is decoded to it. -/
theorem b64Decode_eq_sentinel_iff (x : GoString) :
    (b64Decode x = ascii "invalid base64" ↔
      validStdBase64 x = false ∨ DecodeString x = some (ascii "invalid base64")) ∧
    (b64Decode (b64Encode x) = ascii "invalid base64" ↔ x = ascii "invalid base64") := by
  constructor
  · rw [← DecodeString_eq_none_iff]
    cases h : DecodeString x with
    | none => simp [b64Decode, h]
    | some out => simp [b64Decode, h]
  · simp [b64Decode, b64Encode, DecodeString, decode_EncodeToString]

end HBase
